import Mathlib

/-!
Verification of the black-box finite-difference Newton solver
(`src/generic/black_box_newton_solver.cc`, namespace `oomph::BlackBoxFDNewtonSolver`).

The C++ code is shallowly embedded over the real numbers: `double` vectors of
length `ndof` become functions `Fin n → ℝ`, the dense Jacobian becomes
`Fin n → Fin n → ℝ`, and the opaque dense linear solve is a function parameter.
Exceptions (`OomphLibError`) become an explicit error outcome; the process-wide
configuration globals (`Max_iter`, `Tol`, `FD_step`, `Use_step_length_control`)
and the `N_iter_taken` counter become explicit arguments and results.
The backtracking loop of `line_search` is written with an explicit fuel
argument; its termination for a descent direction is proved as a theorem.
-/

set_option maxHeartbeats 1000000

noncomputable section

namespace BlackBoxFDNewtonSolver

/-- Vectors of doubles, as in `Vector<double>` of length `n`. -/
abbrev Vec (n : ℕ) := Fin n → ℝ

/-- Signature `ResidualFctPt`: `residual_fct(params, unknowns, residuals)`. -/
abbrev ResidualFctPt (P : Type) (n : ℕ) := P → Vec n → Vec n

/-- Signature `JacobianFctPt`: `jacobian_fct(params, unknowns, jacobian)`. -/
abbrev JacobianFctPt (P : Type) (n : ℕ) := P → Vec n → (Fin n → Fin n → ℝ)

/-- The dense linear solve `jacobian.solve(residuals, newton_direction)`,
an opaque collaborator of the solver. -/
abbrev LinearSolvePt (n : ℕ) := (Fin n → Fin n → ℝ) → Vec n → Vec n

/-- Constant `const double min_fct_decrease = 1.0e-4` in `line_search`. -/
def min_fct_decrease : ℝ := 1 / 10 ^ 4

/-- Constant `double convergence_tol_on_x = 1.0e-16` in `line_search`. -/
def convergence_tol_on_x : ℝ := 1 / 10 ^ 16

/-- Half the sum of squared residuals (the merit function):
`half_residual_squared += residuals[i]*residuals[i]; half_residual_squared *= 0.5`. -/
def halfResSq {n : ℕ} (r : Vec n) : ℝ := (∑ i, r i * r i) * 0.5

/-- Expression `std::fabs(*std::max_element(residuals.begin(), residuals.end(), AbsCmp<double>()))`:
the running maximum of `|residuals[i]|`, starting from `0`. -/
def maxAbsRes {n : ℕ} (r : Vec n) : ℝ :=
  Finset.univ.fold max 0 (fun i => |r i|)

/-- Expression `max_step = 100.0 * std::max(sqrt(sum), double(ndof))` where
`sum` accumulates `unknowns[i]*unknowns[i]`. -/
def maxStep {n : ℕ} (u : Vec n) : ℝ :=
  100 * max (Real.sqrt (∑ i, u i * u i)) (n : ℝ)

/-- The norm cap at the top of `line_search`: if the Euclidean norm of
`newton_dir` exceeds `stpmax`, rescale by `stpmax/sum`. -/
def capDir {n : ℕ} (stpmax : ℝ) (d : Vec n) : Vec n :=
  if Real.sqrt (∑ i, d i * d i) > stpmax then
    fun i => d i * (stpmax / Real.sqrt (∑ i, d i * d i))
  else d

/-- Accumulation `slope += gradient[i] * newton_dir[i]`. -/
def slopeOf {n : ℕ} (g d : Vec n) : ℝ := ∑ i, g i * d i

/-- The scale `test` of `line_search`: running maximum, from `0`, of
`fabs(newton_dir[i]) / max(fabs(x_old[i]), 1.0)`. -/
def test_scale {n : ℕ} (x_old d : Vec n) : ℝ :=
  Finset.univ.fold max 0 (fun i => |d i| / max |x_old i| 1)

/-- Expression `lambda_min = convergence_tol_on_x / test`. -/
def lambda_min {n : ℕ} (x_old d : Vec n) : ℝ :=
  convergence_tol_on_x / test_scale x_old d

/-- One step-length update of the backtracking loop of `line_search`:
from the current `lam` (`lambda`), the previous trial `lamAux`/`fAux`
(`lambda_aux`, `f_aux`) and the merit `f` at the current trial point,
produce the next `lambda = max(proposed_lambda, 0.1*lambda)`. -/
def next_lambda (slope f_old lam lamAux fAux f : ℝ) : ℝ :=
  let proposed :=
    if lam = 1 then
      -slope / (2 * (f - f_old - slope))
    else
      let r1 := f - f_old - lam * slope
      let r2 := fAux - f_old - lamAux * slope
      let aPoly := (r1 / (lam * lam) - r2 / (lamAux * lamAux)) / (lam - lamAux)
      let bPoly := (-lamAux * r1 / (lam * lam) + lam * r2 / (lamAux * lamAux)) /
        (lam - lamAux)
      let p :=
        if aPoly = 0 then -slope / (2 * bPoly)
        else
          let discriminant := bPoly * bPoly - 3 * aPoly * slope
          if discriminant < 0 then 0.5 * lam
          else if bPoly ≤ 0 then (-bPoly + Real.sqrt discriminant) / (3 * aPoly)
          else -slope / (bPoly + Real.sqrt discriminant)
      if p > 0.5 * lam then 0.5 * lam else p
  max proposed (0.1 * lam)

/-- Result of the backtracking loop of `line_search`: the output vector `x`,
the output merit value `half_residual_squared`, the step multiplier `lam` at
exit, and whether the exit was the stagnation branch (`lambda < lambda_min`,
the branch that restores `x` to `x_old` and emits the non-fatal warning). -/
structure LSRes (n : ℕ) where
  x : Vec n
  half_residual_squared : ℝ
  lam : ℝ
  stagnated : Bool

/-- The `while(true)` backtracking loop of `line_search`, with fuel.
Each pass sets `x = x_old + lambda*newton_dir`, evaluates the residuals there
and the merit `f`; exits via the stagnation branch if `lambda < lambda_min`,
via the acceptance branch if the sufficient-decrease test holds, and otherwise
recurses with the `next_lambda` update. -/
def lsLoop {P : Type} {n : ℕ} (residual_fct : ResidualFctPt P n) (params : P)
    (x_old : Vec n) (f_old slope lamMin : ℝ) (dir : Vec n) :
    ℕ → ℝ → ℝ → ℝ → Option (LSRes n)
  | 0, _, _, _ => none
  | fuel + 1, lam, lamAux, fAux =>
    let x : Vec n := fun i => x_old i + lam * dir i
    let f := halfResSq (residual_fct params x)
    if lam < lamMin then some ⟨x_old, f, lam, true⟩
    else if f ≤ f_old + min_fct_decrease * lam * slope then some ⟨x, f, lam, false⟩
    else
      lsLoop residual_fct params x_old f_old slope lamMin dir fuel
        (next_lambda slope f_old lam lamAux fAux f) lam f

/-- Outcome of `line_search`: either the `OomphLibError` throw
("Roundoff problem in lnsrch") or a normal return. Both record the final
contents of the in/out arguments `x`, `half_residual_squared` and
`newton_dir` (the latter possibly rescaled by the norm cap). -/
inductive LSOutcome (n : ℕ) where
  | roundoff (x : Vec n) (half_residual_squared : ℝ) (dir : Vec n)
  | finished (x : Vec n) (half_residual_squared : ℝ) (dir : Vec n) (lam : ℝ)
      (stagnated : Bool)

/-- Function `line_search(x_old, half_residual_squared_old, gradient, residual_fct,
params, newton_dir, x, half_residual_squared, stpmax)`.  The extra arguments
`x` and `half_residual_squared` hold the contents of the in/out C++ arguments
at entry; `fuel` bounds the backtracking loop (`none` = fuel exhausted). -/
def line_search {P : Type} {n : ℕ} (fuel : ℕ) (x_old : Vec n)
    (half_residual_squared_old : ℝ) (gradient : Vec n)
    (residual_fct : ResidualFctPt P n) (params : P) (newton_dir : Vec n)
    (x : Vec n) (half_residual_squared : ℝ) (stpmax : ℝ) :
    Option (LSOutcome n) :=
  let dir := capDir stpmax newton_dir
  let slope := slopeOf gradient dir
  if slope ≥ 0 then some (.roundoff x half_residual_squared dir)
  else
    (lsLoop residual_fct params x_old half_residual_squared_old slope
        (lambda_min x_old dir) dir fuel 1 0 0).map
      fun r => .finished r.x r.half_residual_squared dir r.lam r.stagnated

/-- The finite-difference Jacobian loop, as explicit state passing: for each
column index in `cols`, save `backup = unknowns[i]`, advance `unknowns[i]` by
`fd_step`, evaluate the advanced residuals, write column `i` of the Jacobian
as `(residuals_pls[j] - residuals[j]) / fd_step` against the base residuals,
and restore `unknowns[i] = backup`.  Returns the final unknowns and Jacobian. -/
def fdAssemble {P : Type} {n : ℕ} (residual_fct : ResidualFctPt P n) (params : P)
    (fd_step : ℝ) (base_res : Vec n) :
    List (Fin n) → Vec n → (Fin n → Fin n → ℝ) → Vec n × (Fin n → Fin n → ℝ)
  | [], u, jac => (u, jac)
  | i :: rest, u, jac =>
    let backup := u i
    let u1 := Function.update u i (u i + fd_step)
    let resPls := residual_fct params u1
    let jac1 : Fin n → Fin n → ℝ :=
      fun j k => if k = i then (resPls j - base_res j) / fd_step else jac j k
    fdAssemble residual_fct params fd_step base_res rest
      (Function.update u1 i backup) jac1

/-- Fatal errors of the solver: the "Newton solver did not converge" throw
of the driver, and the "Roundoff problem in lnsrch" throw propagated from
`line_search`. -/
inductive SolverError where
  | convergenceFailure
  | roundoff

/-- Jacobian construction of one Newton step: finite differences when
`jacobian_fct == 0`, otherwise the analytic `jacobian_fct`.  Returns the
unknowns after assembly together with the Jacobian. -/
def jacobianOf {P : Type} {n : ℕ} (residual_fct : ResidualFctPt P n)
    (jacobian_fct : Option (JacobianFctPt P n)) (params : P) (fd_step : ℝ)
    (res : Vec n) (u : Vec n) : Vec n × (Fin n → Fin n → ℝ) :=
  match jacobian_fct with
  | none => fdAssemble residual_fct params fd_step res (List.finRange n) u
      (fun _ _ => 0)
  | some jf => (u, jf params u)

/-- The Newton iteration loop `for (iloop = 0; iloop < Max_iter; iloop++)`
of `black_box_fd_newton_solve`, recursing on the remaining iteration budget
and carrying the unknowns and `N_iter_taken`.  Returns the outcome together
with the final value of `N_iter_taken`; `none` means a `line_search`
backtracking loop exceeded its fuel. -/
def newtonLoop {P : Type} {n : ℕ} (residual_fct : ResidualFctPt P n)
    (jacobian_fct : Option (JacobianFctPt P n)) (linear_solve : LinearSolvePt n)
    (params : P) (tol fd_step : ℝ) (use_step_length_control : Bool)
    (ls_fuel : ℕ) : ℕ → Vec n → ℕ → Option (Except SolverError (Vec n) × ℕ)
  | 0, _, iters => some (.error .convergenceFailure, iters)
  | k + 1, u, iters =>
    let res := residual_fct params u
    if maxAbsRes res < tol then some (.ok u, iters)
    else
      let p := jacobianOf residual_fct jacobian_fct params fd_step res u
      let grad : Vec n := fun i => ∑ j, p.2 j i * res j
      let d := linear_solve p.2 res
      if use_step_length_control then
        let f_old := halfResSq res
        match line_search ls_fuel p.1 f_old grad residual_fct params
            (fun i => -d i) p.1 f_old (maxStep u) with
        | none => none
        | some (.roundoff _ _ _) => some (.error .roundoff, iters + 1)
        | some (.finished xNew _ _ _ _) =>
          newtonLoop residual_fct jacobian_fct linear_solve params tol fd_step
            use_step_length_control ls_fuel k xNew (iters + 1)
      else
        newtonLoop residual_fct jacobian_fct linear_solve params tol fd_step
          use_step_length_control ls_fuel k (fun i => p.1 i - d i) (iters + 1)

/-- Function `black_box_fd_newton_solve(residual_fct, params, unknowns, jacobian_fct)`,
with the configuration globals (`Max_iter`, `Tol`, `FD_step`,
`Use_step_length_control`) and the opaque linear solve made explicit.
The returned natural number is the final value of `N_iter_taken` (reset to
`0` on entry). -/
def black_box_fd_newton_solve {P : Type} {n : ℕ} (residual_fct : ResidualFctPt P n)
    (jacobian_fct : Option (JacobianFctPt P n)) (linear_solve : LinearSolvePt n)
    (params : P) (max_iter : ℕ) (tol fd_step : ℝ)
    (use_step_length_control : Bool) (ls_fuel : ℕ) (unknowns : Vec n) :
    Option (Except SolverError (Vec n) × ℕ) :=
  newtonLoop residual_fct jacobian_fct linear_solve params tol fd_step
    use_step_length_control ls_fuel max_iter unknowns 0

/-- The geometric shrink ratio of the backtracking loop: on the very first
backtrack (from `lambda = 1`) the unclamped quadratic step can be as large as
`1 / (2*(1 - min_fct_decrease))` (slightly above one half); on later
backtracks the clamp caps the ratio at one half. -/
def shrink_factor : ℝ := 1 / (2 * (1 - min_fct_decrease))

/-! Concrete instances for witnesses and counterexamples -/

/-- The residual function `r(x) = x` (`N = 1`, no parameters). -/
def idResFct : ResidualFctPt Unit 1 := fun _ u => u

/-- An analytic Jacobian provider returning the constant `1` by `1` matrix
with entry `1`. -/
def oneJacFct : JacobianFctPt Unit 1 := fun _ _ => fun _ _ => 1

/-- A linear-solve collaborator returning the negated right-hand side. -/
def negLinSolve : LinearSolvePt 1 := fun _ b => fun i => -b i

/-- A linear-solve collaborator returning the right-hand side itself. -/
def idLinSolve : LinearSolvePt 1 := fun _ b => b

/-- The vector `(0)`. -/
def zeroVec : Vec 1 := fun _ => 0

/-- The vector `(1)`. -/
def oneVec : Vec 1 := fun _ => 1

/-- The vector `(2)`. -/
def twoVec : Vec 1 := fun _ => 2

/-- A tiny direction `(1e-17)`, small enough that `lambda_min` exceeds `1`. -/
def tinyDir : Vec 1 := fun _ => 1 / 10 ^ 17

/-- The gradient `(-1)`. -/
def negGrad : Vec 1 := fun _ => -1

/-- The gradient `(1)`. -/
def oneGrad : Vec 1 := fun _ => 1

/-- The direction `(-1)`. -/
def negOneDir : Vec 1 := fun _ => -1

/-- A direction `(300)`, long enough to trigger the norm cap. -/
def hugeDir : Vec 1 := fun _ => 300

/-- The point accepted by the line search started at `oneVec` along
`negOneDir` with step multiplier `1`. -/
def acceptX : Vec 1 := fun _ => 0

/-- The merit value at the trial point `oneVec + 1 * tinyDir`. -/
def stagMerit : ℝ := ((1 + 1 / 10 ^ 17) * (1 + 1 / 10 ^ 17)) * 0.5

/-! Helper lemmas -/

/-- A running maximum started from `0` of nonnegative values over a nonempty
index set equals the true maximum. -/
lemma fold_max_zero_eq_sup' {n : ℕ} (f : Fin n → ℝ)
    (hne : (Finset.univ : Finset (Fin n)).Nonempty) (hf : ∀ i, 0 ≤ f i) :
    Finset.univ.fold max 0 f = Finset.univ.sup' hne f := by
  refine le_antisymm ?_ ?_
  · refine (Finset.fold_max_le _).mpr ⟨?_, fun x _ => Finset.le_sup' f (Finset.mem_univ x)⟩
    obtain ⟨i, _⟩ := hne
    exact le_trans (hf i) (Finset.le_sup' f (Finset.mem_univ i))
  · exact Finset.sup'_le hne f fun i _ =>
      (Finset.le_fold_max _).mpr (Or.inr ⟨i, Finset.mem_univ i, le_rfl⟩)

/-- Every summand is below the running maximum. -/
lemma le_fold_max_zero {n : ℕ} (f : Fin n → ℝ) (i : Fin n) :
    f i ≤ Finset.univ.fold max 0 f :=
  (Finset.le_fold_max _).mpr (Or.inr ⟨i, Finset.mem_univ i, le_rfl⟩)

/-- If the directional derivative of the merit function is negative, the
direction has a nonzero component. -/
lemma exists_ne_zero_of_slope_neg {n : ℕ} {g d : Vec n} (h : slopeOf g d < 0) :
    ∃ i, d i ≠ 0 := by
  by_contra hall
  push_neg at hall
  have : slopeOf g d = 0 := by
    unfold slopeOf
    exact Finset.sum_eq_zero fun i _ => by rw [hall i, mul_zero]
  exact absurd this (ne_of_lt h)

/-- A negative slope forces a positive `test` scale, hence a positive
`lambda_min`. -/
lemma lambda_min_pos {n : ℕ} {g : Vec n} (x_old : Vec n) {d : Vec n}
    (h : slopeOf g d < 0) : 0 < lambda_min x_old d := by
  obtain ⟨i, hi⟩ := exists_ne_zero_of_slope_neg h
  have hpos : 0 < |d i| / max |x_old i| 1 := by
    apply div_pos (abs_pos.mpr hi)
    exact lt_of_lt_of_le one_pos (le_max_right _ _)
  have htest : 0 < test_scale x_old d := by
    unfold test_scale
    exact lt_of_lt_of_le hpos
      (le_fold_max_zero (fun j => |d j| / max |x_old j| 1) i)
  unfold lambda_min convergence_tol_on_x
  positivity

/-- Exit invariants of the backtracking loop: on any exit, the returned merit
is the merit value at the last trial point `x_old + lam*dir`; the stagnation
exit returns `x = x_old` with `lam < lambda_min`; the acceptance exit returns
the trial point itself together with the sufficient-decrease inequality. -/
lemma lsLoop_exit_spec {P : Type} {n : ℕ} (residual_fct : ResidualFctPt P n)
    (params : P) (x_old : Vec n) (f_old slope lamMin : ℝ) (dir : Vec n) :
    ∀ fuel lam lamAux fAux r,
      lsLoop residual_fct params x_old f_old slope lamMin dir fuel lam lamAux
          fAux = some r →
      r.half_residual_squared
          = halfResSq (residual_fct params fun i => x_old i + r.lam * dir i) ∧
      (r.stagnated = true → r.x = x_old ∧ r.lam < lamMin) ∧
      (r.stagnated = false →
        r.x = (fun i => x_old i + r.lam * dir i) ∧ lamMin ≤ r.lam ∧
        r.half_residual_squared ≤ f_old + min_fct_decrease * r.lam * slope) := by
  intro fuel
  induction fuel with
  | zero =>
    intro lam lamAux fAux r h
    simp [lsLoop] at h
  | succ fuel ih =>
    intro lam lamAux fAux r h
    simp only [lsLoop] at h
    split_ifs at h with h1 h2
    · obtain rfl : (⟨x_old, _, lam, true⟩ : LSRes n) = r := Option.some.inj h
      exact ⟨rfl, fun _ => ⟨rfl, h1⟩, fun hc => by simp at hc⟩
    · obtain rfl : (⟨_, _, lam, false⟩ : LSRes n) = r := Option.some.inj h
      exact ⟨rfl, fun hc => by simp at hc, fun _ => ⟨rfl, not_lt.mp h1, h2⟩⟩
    · exact ih _ _ _ r h

/-- Inversion of a normal return of `line_search`: the slope test passed,
the direction is the capped one, and the result comes from the backtracking
loop started at `lambda = 1`. -/
lemma line_search_finished_inv {P : Type} {n : ℕ} {fuel : ℕ} {x_old : Vec n}
    {f_old : ℝ} {gradient : Vec n} {residual_fct : ResidualFctPt P n}
    {params : P} {newton_dir : Vec n} {xIn : Vec n} {meritIn : ℝ} {stpmax : ℝ}
    {xr : Vec n} {fr : ℝ} {dr : Vec n} {lamr : ℝ} {st : Bool}
    (h : line_search fuel x_old f_old gradient residual_fct params newton_dir
        xIn meritIn stpmax = some (LSOutcome.finished xr fr dr lamr st)) :
    dr = capDir stpmax newton_dir ∧
    slopeOf gradient (capDir stpmax newton_dir) < 0 ∧
    ∃ r : LSRes n,
      lsLoop residual_fct params x_old f_old
          (slopeOf gradient (capDir stpmax newton_dir))
          (lambda_min x_old (capDir stpmax newton_dir))
          (capDir stpmax newton_dir) fuel 1 0 0 = some r ∧
      r.x = xr ∧ r.half_residual_squared = fr ∧ r.lam = lamr ∧
      r.stagnated = st := by
  simp only [line_search] at h
  split_ifs at h with hge
  · simp at h
  · rcases hr : lsLoop residual_fct params x_old f_old
        (slopeOf gradient (capDir stpmax newton_dir))
        (lambda_min x_old (capDir stpmax newton_dir))
        (capDir stpmax newton_dir) fuel 1 0 0 with _ | r
    · rw [hr] at h
      simp at h
    · rw [hr] at h
      simp only [Option.map_some', Option.some.injEq, LSOutcome.finished.injEq] at h
      exact ⟨h.2.2.1.symm, not_le.mp hge, r, rfl, h.1, h.2.1, h.2.2.2.1, h.2.2.2.2⟩

/-- Claim C3 (amended): whenever `line_search` returns via the stagnation
exit, the output vector is restored to `x_old` and only the non-fatal
warning branch is taken; the returned merit value is the merit at the last
trial point `x_old + lam*dir` (not, in general, the merit at the restored
`x_old`). -/
theorem line_search_stagnation_restores_x {P : Type} {n : ℕ} {fuel : ℕ}
    {x_old : Vec n} {f_old : ℝ} {gradient : Vec n}
    {residual_fct : ResidualFctPt P n} {params : P} {newton_dir : Vec n}
    {xIn : Vec n} {meritIn : ℝ} {stpmax : ℝ} {xr : Vec n} {fr : ℝ}
    {dr : Vec n} {lamr : ℝ}
    (h : line_search fuel x_old f_old gradient residual_fct params newton_dir
        xIn meritIn stpmax = some (LSOutcome.finished xr fr dr lamr true)) :
    xr = x_old ∧ dr = capDir stpmax newton_dir ∧
    lamr < lambda_min x_old dr ∧
    fr = halfResSq (residual_fct params fun i => x_old i + lamr * dr i) := by
  obtain ⟨hdr, -, r, hr, hx, hf, hlam, hst⟩ := line_search_finished_inv h
  obtain ⟨hmerit, hstag, -⟩ :=
    lsLoop_exit_spec residual_fct params x_old f_old _ _ _ fuel 1 0 0 r hr
  obtain ⟨hrx, hrlam⟩ := hstag hst
  subst hdr
  refine ⟨hx ▸ hrx, rfl, hlam ▸ hrlam, ?_⟩
  rw [← hf, ← hlam]
  exact hmerit

/-- Claim C5: whenever `line_search` returns via the acceptance branch, the
returned merit is the merit-function value at the returned point
`x = x_old + lam*dir`, and it satisfies the sufficient-decrease (Armijo)
inequality with constant `min_fct_decrease = 1e-4`. -/
theorem line_search_accept_sufficient_decrease {P : Type} {n : ℕ} {fuel : ℕ}
    {x_old : Vec n} {f_old : ℝ} {gradient : Vec n}
    {residual_fct : ResidualFctPt P n} {params : P} {newton_dir : Vec n}
    {xIn : Vec n} {meritIn : ℝ} {stpmax : ℝ} {xr : Vec n} {fr : ℝ}
    {dr : Vec n} {lamr : ℝ}
    (h : line_search fuel x_old f_old gradient residual_fct params newton_dir
        xIn meritIn stpmax = some (LSOutcome.finished xr fr dr lamr false)) :
    dr = capDir stpmax newton_dir ∧
    xr = (fun i => x_old i + lamr * dr i) ∧
    fr = halfResSq (residual_fct params xr) ∧
    fr ≤ f_old + min_fct_decrease * lamr * slopeOf gradient dr := by
  obtain ⟨hdr, -, r, hr, hx, hf, hlam, hst⟩ := line_search_finished_inv h
  obtain ⟨hmerit, -, hacc⟩ :=
    lsLoop_exit_spec residual_fct params x_old f_old _ _ _ fuel 1 0 0 r hr
  obtain ⟨hrx, -, hrle⟩ := hacc hst
  subst hdr
  have hxeq : xr = (fun i => x_old i + lamr * capDir stpmax newton_dir i) := by
    rw [← hx, ← hlam]
    exact hrx
  refine ⟨rfl, hxeq, ?_, ?_⟩
  · rw [← hf, hxeq, ← hlam]
    exact hmerit
  · rw [← hf, ← hlam]
    exact hrle

/-- Claim C10: when the slope test fails, the `RoundoffError` is raised
before any write to the output vector `x` and before any residual
evaluation: the outcome returns the entry contents of `x` and of
`half_residual_squared` unchanged, for every residual function, and the only
modified state is the (norm-capped) direction. -/
theorem line_search_roundoff_preserves_x {P : Type} {n : ℕ} (fuel : ℕ)
    (x_old : Vec n) (f_old : ℝ) (gradient : Vec n)
    (residual_fct : ResidualFctPt P n) (params : P) (newton_dir : Vec n)
    (xIn : Vec n) (meritIn : ℝ) (stpmax : ℝ)
    (h : 0 ≤ slopeOf gradient (capDir stpmax newton_dir)) :
    line_search fuel x_old f_old gradient residual_fct params newton_dir xIn
        meritIn stpmax
      = some (LSOutcome.roundoff xIn meritIn (capDir stpmax newton_dir)) := by
  simp only [line_search]
  rw [if_pos h]

/-- Claim C4: `line_search` raises the `RoundoffError` if and only if the
directional derivative `slope = gradient · direction`, computed after the
norm cap on the direction, is nonnegative. -/
theorem line_search_roundoff_iff_nonneg_slope {P : Type} {n : ℕ} (fuel : ℕ)
    (x_old : Vec n) (f_old : ℝ) (gradient : Vec n)
    (residual_fct : ResidualFctPt P n) (params : P) (newton_dir : Vec n)
    (xIn : Vec n) (meritIn : ℝ) (stpmax : ℝ) :
    (∃ a b c, line_search fuel x_old f_old gradient residual_fct params
        newton_dir xIn meritIn stpmax = some (LSOutcome.roundoff a b c))
      ↔ 0 ≤ slopeOf gradient (capDir stpmax newton_dir) := by
  constructor
  · rintro ⟨a, b, c, h⟩
    by_contra hneg
    simp only [line_search] at h
    rw [if_neg hneg] at h
    rcases hr : lsLoop residual_fct params x_old f_old
        (slopeOf gradient (capDir stpmax newton_dir))
        (lambda_min x_old (capDir stpmax newton_dir))
        (capDir stpmax newton_dir) fuel 1 0 0 with _ | r
    · rw [hr] at h
      simp at h
    · rw [hr] at h
      simp at h
  · intro h
    refine ⟨xIn, meritIn, capDir stpmax newton_dir, ?_⟩
    simp only [line_search]
    rw [if_pos h]

/-- Claim C9: the minimum admissible step multiplier of `line_search` equals
`convergence_tol_on_x` divided by the maximum over `i` of
`|dir i| / max(|x_old i|, 1)`, and any pass of the backtracking loop whose
trial `lambda` is strictly below it exits at once through the stagnation
branch, returning `x_old` with the merit of the trial point. -/
theorem lambda_min_formula_and_stagnation_exit {P : Type} {n : ℕ}
    (residual_fct : ResidualFctPt P n) (params : P) (x_old : Vec n)
    (f_old slope : ℝ) (dir : Vec n) (hn : 0 < n) :
    lambda_min x_old dir
        = convergence_tol_on_x /
            ((Finset.univ : Finset (Fin n)).sup' ⟨⟨0, hn⟩, Finset.mem_univ _⟩
              fun i => |dir i| / max |x_old i| 1) ∧
    ∀ fuel lam lamAux fAux, lam < lambda_min x_old dir →
      lsLoop residual_fct params x_old f_old slope (lambda_min x_old dir) dir
          (fuel + 1) lam lamAux fAux
        = some ⟨x_old,
            halfResSq (residual_fct params fun i => x_old i + lam * dir i),
            lam, true⟩ := by
  constructor
  · unfold lambda_min test_scale
    rw [fold_max_zero_eq_sup' _ ⟨⟨0, hn⟩, Finset.mem_univ _⟩]
    intro i
    exact div_nonneg (abs_nonneg _) (le_trans zero_le_one (le_max_right _ _))
  · intro fuel lam lamAux fAux hlt
    simp only [lsLoop]
    rw [if_pos hlt]

/-- Claim C8: the step cap the driver hands to the line search is
`100 * max(Euclidean norm of unknowns, n)`, and the norm cap at the top of
`line_search` rescales the direction to have Euclidean norm exactly equal to
the cap whenever its norm exceeds the cap, leaving it unmodified otherwise. -/
theorem step_cap_norm {n : ℕ} (u dirIn : Vec n)
    (hbig : maxStep u < Real.sqrt (∑ i, dirIn i * dirIn i)) :
    maxStep u = 100 * max (Real.sqrt (∑ i, u i * u i)) (n : ℝ) ∧
    Real.sqrt
        (∑ i, capDir (maxStep u) dirIn i * capDir (maxStep u) dirIn i)
      = maxStep u ∧
    ∀ d : Vec n, ¬ (maxStep u < Real.sqrt (∑ i, d i * d i)) →
      capDir (maxStep u) d = d := by
  have hm : 0 ≤ maxStep u := by
    unfold maxStep
    have : (0 : ℝ) ≤ max (Real.sqrt (∑ i, u i * u i)) (n : ℝ) :=
      le_trans (Real.sqrt_nonneg _) (le_max_left _ _)
    linarith
  have hSnn : 0 ≤ ∑ i, dirIn i * dirIn i :=
    Finset.sum_nonneg fun i _ => mul_self_nonneg _
  have hS : 0 < Real.sqrt (∑ i, dirIn i * dirIn i) := lt_of_le_of_lt hm hbig
  refine ⟨rfl, ?_, ?_⟩
  · unfold capDir
    rw [if_pos hbig]
    have hsum : (∑ i, (dirIn i * (maxStep u / Real.sqrt (∑ j, dirIn j * dirIn j)))
          * (dirIn i * (maxStep u / Real.sqrt (∑ j, dirIn j * dirIn j))))
        = (maxStep u / Real.sqrt (∑ j, dirIn j * dirIn j)) ^ 2
            * ∑ i, dirIn i * dirIn i := by
      rw [Finset.mul_sum]
      exact Finset.sum_congr rfl fun i _ => by ring
    rw [hsum, Real.sqrt_mul (sq_nonneg _), Real.sqrt_sq_eq_abs,
      abs_of_nonneg (div_nonneg hm (Real.sqrt_nonneg _))]
    rw [div_mul_cancel₀ _ (ne_of_gt hS)]
  · intro d hd
    unfold capDir
    rw [if_neg hd]

/-- The upper clamp of the step-length update: the result of
`if (proposed_lambda > 0.5*lambda) proposed_lambda = 0.5*lambda` never
exceeds `0.5*lambda`. -/
lemma ite_clamp_le (x y : ℝ) : (if x > y then y else x) ≤ y := by
  split_ifs with h
  · exact le_rfl
  · exact not_lt.mp h

lemma shrink_factor_pos : 0 < shrink_factor := by
  unfold shrink_factor min_fct_decrease
  norm_num

lemma shrink_factor_lt_one : shrink_factor < 1 := by
  unfold shrink_factor min_fct_decrease
  norm_num

lemma half_le_shrink_factor : (0.5 : ℝ) ≤ shrink_factor := by
  unfold shrink_factor min_fct_decrease
  norm_num

lemma tenth_le_shrink_factor : (0.1 : ℝ) ≤ shrink_factor := by
  unfold shrink_factor min_fct_decrease
  norm_num

/-- The step-length update never shrinks below one tenth of the current
`lambda`. -/
lemma le_next_lambda (slope f_old lam lamAux fAux f : ℝ) :
    0.1 * lam ≤ next_lambda slope f_old lam lamAux fAux f := by
  simp only [next_lambda]
  exact le_max_right _ _

/-- On a rejecting pass with a descent slope, the step-length update shrinks
`lambda` by at least the factor `shrink_factor < 1`. -/
lemma next_lambda_le (lamAux fAux : ℝ) {slope f_old lam f : ℝ}
    (hslope : slope < 0) (hlam : 0 < lam)
    (hreject : f_old + min_fct_decrease * lam * slope < f) :
    next_lambda slope f_old lam lamAux fAux f ≤ shrink_factor * lam := by
  have hc : (0 : ℝ) < 1 - min_fct_decrease := by
    unfold min_fct_decrease
    norm_num
  have h10 : (0.1 : ℝ) * lam ≤ shrink_factor * lam :=
    mul_le_mul_of_nonneg_right tenth_le_shrink_factor hlam.le
  simp only [next_lambda]
  refine max_le ?_ h10
  by_cases hl1 : lam = 1
  · subst hl1
    rw [if_pos rfl]
    have hs : 0 < -slope := neg_pos.mpr hslope
    have hA : (1 - min_fct_decrease) * (-slope) < f - f_old - slope := by
      ring_nf
      ring_nf at hreject
      linarith
    have hA0 : 0 < f - f_old - slope := by
      have : 0 < (1 - min_fct_decrease) * (-slope) := mul_pos hc hs
      linarith
    rw [shrink_factor, mul_one,
      div_le_div_iff₀ (by linarith : (0:ℝ) < 2 * (f - f_old - slope))
        (by linarith : (0:ℝ) < 2 * (1 - min_fct_decrease))]
    nlinarith
  · rw [if_neg hl1]
    refine le_trans (ite_clamp_le _ _) ?_
    calc (0.5 : ℝ) * lam ≤ shrink_factor * lam :=
      mul_le_mul_of_nonneg_right half_le_shrink_factor hlam.le

/-- One pass of the backtracking loop, unfolded. -/
lemma lsLoop_succ {P : Type} {n : ℕ} (residual_fct : ResidualFctPt P n)
    (params : P) (x_old : Vec n) (f_old slope lamMin : ℝ) (dir : Vec n)
    (fuel : ℕ) (lam lamAux fAux : ℝ) :
    lsLoop residual_fct params x_old f_old slope lamMin dir (fuel + 1) lam
        lamAux fAux
      = (if lam < lamMin then
          some ⟨x_old,
            halfResSq (residual_fct params fun i => x_old i + lam * dir i),
            lam, true⟩
        else if halfResSq (residual_fct params fun i => x_old i + lam * dir i)
            ≤ f_old + min_fct_decrease * lam * slope then
          some ⟨fun i => x_old i + lam * dir i,
            halfResSq (residual_fct params fun i => x_old i + lam * dir i),
            lam, false⟩
        else
          lsLoop residual_fct params x_old f_old slope lamMin dir fuel
            (next_lambda slope f_old lam lamAux fAux
              (halfResSq (residual_fct params fun i => x_old i + lam * dir i)))
            lam
            (halfResSq (residual_fct params fun i => x_old i + lam * dir i))) := by
  simp only [lsLoop]

/-- If the starting `lambda` already satisfies
`lambda * shrink_factor ^ k < lambda_min`, then `k + 1` passes of fuel
suffice for the backtracking loop to exit. -/
lemma lsLoop_terminates_of_bound {P : Type} {n : ℕ}
    (residual_fct : ResidualFctPt P n) (params : P) (x_old : Vec n)
    (f_old : ℝ) {slope : ℝ} (lamMin : ℝ) (dir : Vec n)
    (hslope : slope < 0) :
    ∀ k lam lamAux fAux, 0 < lam → lam * shrink_factor ^ k < lamMin →
      (lsLoop residual_fct params x_old f_old slope lamMin dir (k + 1) lam
          lamAux fAux).isSome = true := by
  intro k
  induction k with
  | zero =>
    intro lam lamAux fAux hl hb
    simp only [pow_zero, mul_one] at hb
    rw [lsLoop_succ, if_pos hb]
    rfl
  | succ k ih =>
    intro lam lamAux fAux hl hb
    rw [lsLoop_succ]
    split_ifs with h1 h2
    · rfl
    · rfl
    · refine ih _ _ _ ?_ ?_
      · exact lt_of_lt_of_le (by linarith) (le_next_lambda _ _ _ _ _ _)
      · have hle := next_lambda_le lamAux fAux hslope hl (not_le.mp h2)
        calc next_lambda slope f_old lam lamAux fAux
              (halfResSq (residual_fct params fun i => x_old i + lam * dir i))
              * shrink_factor ^ k
            ≤ shrink_factor * lam * shrink_factor ^ k :=
              mul_le_mul_of_nonneg_right hle
                (pow_nonneg shrink_factor_pos.le k)
          _ = lam * shrink_factor ^ (k + 1) := by ring
          _ < lamMin := hb

/-- Claim C6: for a descent direction (negative capped slope) the
backtracking loop of `line_search` terminates: each rejecting pass multiplies
`lambda` by a factor between one tenth and `shrink_factor` (slightly above
one half), so `lambda` decreases strictly and geometrically, and some finite
fuel makes `line_search` return. -/
theorem line_search_backtracking_terminates {P : Type} {n : ℕ}
    (x_old : Vec n) (f_old : ℝ) (gradient : Vec n)
    (residual_fct : ResidualFctPt P n) (params : P) (newton_dir : Vec n)
    (xIn : Vec n) (meritIn : ℝ) (stpmax : ℝ)
    (h : slopeOf gradient (capDir stpmax newton_dir) < 0) :
    (∀ lam lamAux fAux f, 0 < lam →
      f_old + min_fct_decrease * lam * slopeOf gradient (capDir stpmax newton_dir)
          < f →
      0.1 * lam
          ≤ next_lambda (slopeOf gradient (capDir stpmax newton_dir)) f_old
              lam lamAux fAux f ∧
      next_lambda (slopeOf gradient (capDir stpmax newton_dir)) f_old lam
          lamAux fAux f ≤ shrink_factor * lam ∧
      next_lambda (slopeOf gradient (capDir stpmax newton_dir)) f_old lam
          lamAux fAux f < lam) ∧
    ∃ fuel, (line_search fuel x_old f_old gradient residual_fct params
        newton_dir xIn meritIn stpmax).isSome = true := by
  constructor
  · intro lam lamAux fAux f hlam hreject
    have hle := next_lambda_le lamAux fAux h hlam hreject
    refine ⟨le_next_lambda _ _ _ _ _ _, hle, lt_of_le_of_lt hle ?_⟩
    calc shrink_factor * lam < 1 * lam :=
        mul_lt_mul_of_pos_right shrink_factor_lt_one hlam
      _ = lam := one_mul lam
  · have hmin : 0 < lambda_min x_old (capDir stpmax newton_dir) :=
      lambda_min_pos x_old h
    obtain ⟨K, hK⟩ := exists_pow_lt_of_lt_one hmin shrink_factor_lt_one
    refine ⟨K + 1, ?_⟩
    simp only [line_search]
    rw [if_neg (not_le.mpr h)]
    rw [Option.isSome_map']
    exact lsLoop_terminates_of_bound residual_fct params x_old f_old
      (lambda_min x_old (capDir stpmax newton_dir)) (capDir stpmax newton_dir)
      h K 1 0 0 one_pos (by rw [one_mul]; exact hK)

/-- Column-by-column description of the finite-difference assembly loop with
an invariant: the unknowns are restored exactly, and every visited column
holds the forward difference quotient against the base residuals. -/
lemma fdAssemble_go {P : Type} {n : ℕ} (residual_fct : ResidualFctPt P n)
    (params : P) (fd_step : ℝ) (base_res : Vec n) :
    ∀ (cols : List (Fin n)) (u : Vec n) (jac : Fin n → Fin n → ℝ),
      (fdAssemble residual_fct params fd_step base_res cols u jac).1 = u ∧
      (fdAssemble residual_fct params fd_step base_res cols u jac).2
        = fun j k => if k ∈ cols then
            (residual_fct params (Function.update u k (u k + fd_step)) j
              - base_res j) / fd_step
          else jac j k := by
  intro cols
  induction cols with
  | nil =>
    intro u jac
    refine ⟨rfl, ?_⟩
    funext j k
    simp [fdAssemble]
  | cons i rest ih =>
    intro u jac
    simp only [fdAssemble]
    have hu2 : Function.update (Function.update u i (u i + fd_step)) i (u i)
        = u := by
      rw [Function.update_idem]
      exact Function.update_eq_self i u
    rw [hu2]
    obtain ⟨h1, h2⟩ := ih u
      (fun j k => if k = i then
          (residual_fct params (Function.update u i (u i + fd_step)) j
            - base_res j) / fd_step
        else jac j k)
    refine ⟨h1, ?_⟩
    rw [h2]
    funext j k
    by_cases hk : k ∈ rest
    · simp [hk, List.mem_cons]
    · by_cases hki : k = i
      · subst hki
        simp [hk, List.mem_cons]
      · simp [hk, hki, List.mem_cons]

/-- Claim C7: with no analytic Jacobian supplied, the assembled Jacobian has
column `i` equal to
`(residual(params, unknowns with entry i advanced by fd_step) -
residual(params, unknowns)) / fd_step`, and after assembly every component of
the unknowns is restored exactly to its value before assembly. -/
theorem fd_jacobian_columns_and_restore {P : Type} {n : ℕ}
    (residual_fct : ResidualFctPt P n) (params : P) (fd_step : ℝ)
    (u : Vec n) :
    (jacobianOf residual_fct none params fd_step (residual_fct params u) u).1
        = u ∧
    (jacobianOf residual_fct none params fd_step (residual_fct params u) u).2
        = fun j i =>
            (residual_fct params (Function.update u i (u i + fd_step)) j
              - residual_fct params u j) / fd_step := by
  obtain ⟨h1, h2⟩ := fdAssemble_go residual_fct params fd_step
    (residual_fct params u) (List.finRange n) u (fun _ _ => 0)
  refine ⟨h1, ?_⟩
  rw [show jacobianOf residual_fct none params fd_step (residual_fct params u) u
      = fdAssemble residual_fct params fd_step (residual_fct params u)
          (List.finRange n) u (fun _ _ => 0) from rfl, h2]
  funext j i
  rw [if_pos (List.mem_finRange i)]

/-- Outcome classification of the Newton iteration loop, by induction on the
remaining iteration budget: a normal return carries a residual below the
tolerance; the convergence-failure throw happens only after consuming the
whole budget, with the iteration counter advanced accordingly; the only other
outcome is the roundoff error propagated from the line search, which can
occur only with step-length control enabled. -/
lemma newtonLoop_spec {P : Type} {n : ℕ} (residual_fct : ResidualFctPt P n)
    (jacobian_fct : Option (JacobianFctPt P n)) (linear_solve : LinearSolvePt n)
    (params : P) (tol fd_step : ℝ) (ctl : Bool) (ls_fuel : ℕ) :
    ∀ k u iters out m,
      newtonLoop residual_fct jacobian_fct linear_solve params tol fd_step ctl
          ls_fuel k u iters = some (out, m) →
      (∃ v, out = Except.ok v ∧ maxAbsRes (residual_fct params v) < tol) ∨
      (out = Except.error SolverError.convergenceFailure ∧ m = iters + k) ∨
      (out = Except.error SolverError.roundoff ∧ ctl = true) := by
  intro k
  induction k with
  | zero =>
    intro u iters out m h
    simp only [newtonLoop, Option.some.injEq, Prod.mk.injEq] at h
    exact Or.inr (Or.inl ⟨h.1.symm, by omega⟩)
  | succ k ih =>
    intro u iters out m h
    simp only [newtonLoop] at h
    split_ifs at h with hconv hctl
    · simp only [Option.some.injEq, Prod.mk.injEq] at h
      exact Or.inl ⟨u, h.1.symm, hconv⟩
    · split at h
      · exact absurd h (by simp)
      · simp only [Option.some.injEq, Prod.mk.injEq] at h
        exact Or.inr (Or.inr ⟨h.1.symm, hctl⟩)
      · rcases ih _ _ _ _ h with h' | ⟨h1, h2⟩ | h'
        · exact Or.inl h'
        · exact Or.inr (Or.inl ⟨h1, by omega⟩)
        · exact Or.inr (Or.inr h')
    · rcases ih _ _ _ _ h with h' | ⟨h1, h2⟩ | h'
      · exact Or.inl h'
      · exact Or.inr (Or.inl ⟨h1, by omega⟩)
      · exact Or.inr (Or.inr h')

/-- Claim C1 (amended): every terminating call of the solver either returns
normally with max-absolute-residual below the tolerance, or throws the
convergence-failure error with `N_iter_taken` equal to `Max_iter`, or — only
when step-length control is enabled — propagates the `RoundoffError` thrown
by the line search. -/
theorem newton_solve_outcome_trichotomy {P : Type} {n : ℕ}
    (residual_fct : ResidualFctPt P n)
    (jacobian_fct : Option (JacobianFctPt P n)) (linear_solve : LinearSolvePt n)
    (params : P) (max_iter : ℕ) (tol fd_step : ℝ) (ctl : Bool) (ls_fuel : ℕ)
    (unknowns : Vec n) (out : Except SolverError (Vec n)) (m : ℕ)
    (h : black_box_fd_newton_solve residual_fct jacobian_fct linear_solve
        params max_iter tol fd_step ctl ls_fuel unknowns = some (out, m)) :
    (∃ v, out = Except.ok v ∧ maxAbsRes (residual_fct params v) < tol) ∨
    (out = Except.error SolverError.convergenceFailure ∧ m = max_iter) ∨
    (out = Except.error SolverError.roundoff ∧ ctl = true) := by
  have hspec := newtonLoop_spec residual_fct jacobian_fct linear_solve params
    tol fd_step ctl ls_fuel max_iter unknowns 0 out m h
  simpa using hspec

/-- Claim C2: if the initial residual of a non-empty unknowns vector is
already below the tolerance (and the iteration budget is positive), the
solver returns at once with `N_iter_taken = 0` and the unknowns unchanged,
for every Jacobian provider, every linear solve, and either update mode:
no Jacobian is built and no linear solve occurs.  Since the output equals
the input, calling the solver again is idempotent. -/
theorem newton_solve_converged_immediate {P : Type} {n : ℕ}
    (residual_fct : ResidualFctPt P n)
    (jacobian_fct : Option (JacobianFctPt P n)) (linear_solve : LinearSolvePt n)
    (params : P) (max_iter : ℕ) (tol fd_step : ℝ) (ctl : Bool) (ls_fuel : ℕ)
    (unknowns : Vec n) (_hn : 0 < n) (hiter : 0 < max_iter)
    (hconv : maxAbsRes (residual_fct params unknowns) < tol) :
    black_box_fd_newton_solve residual_fct jacobian_fct linear_solve params
        max_iter tol fd_step ctl ls_fuel unknowns
      = some (Except.ok unknowns, 0) := by
  obtain ⟨k, rfl⟩ : ∃ k, max_iter = k + 1 := ⟨max_iter - 1, by omega⟩
  unfold black_box_fd_newton_solve
  simp only [newtonLoop]
  rw [if_pos hconv]

/-! Evaluation helpers on the concrete instances -/

lemma maxAbsRes_one (r : Vec 1) : maxAbsRes r = |r 0| := by
  rw [maxAbsRes, Finset.univ_unique, Finset.fold_singleton]
  have h : (default : Fin 1) = 0 := rfl
  rw [h]
  exact max_eq_left (abs_nonneg _)

lemma sqrt_four : Real.sqrt 4 = 2 := by
  rw [show (4 : ℝ) = 2 ^ 2 by norm_num, Real.sqrt_sq (by norm_num : (0:ℝ) ≤ 2)]

lemma capDir_of_le {n : ℕ} (stpmax : ℝ) (d : Vec n)
    (h : Real.sqrt (∑ i, d i * d i) ≤ stpmax) : capDir stpmax d = d := by
  unfold capDir
  rw [if_neg (not_lt.mpr h)]

lemma capDir_tinyDir : capDir 10 tinyDir = tinyDir := by
  apply capDir_of_le
  rw [Fin.sum_univ_one,
    show tinyDir 0 * tinyDir 0 = (1 / 10 ^ 17 : ℝ) * (1 / 10 ^ 17) from rfl,
    Real.sqrt_mul_self (by norm_num : (0:ℝ) ≤ 1 / 10 ^ 17)]
  norm_num

lemma capDir_negOneDir : capDir 10 negOneDir = negOneDir := by
  apply capDir_of_le
  rw [Fin.sum_univ_one, show negOneDir 0 * negOneDir 0 = (1 : ℝ) by
    norm_num [negOneDir], Real.sqrt_one]
  norm_num

lemma capDir_oneGrad : capDir 10 oneGrad = oneGrad := by
  apply capDir_of_le
  rw [Fin.sum_univ_one, show oneGrad 0 * oneGrad 0 = (1 : ℝ) by
    norm_num [oneGrad], Real.sqrt_one]
  norm_num

lemma slope_tiny_neg : slopeOf negGrad tinyDir < 0 := by
  unfold slopeOf
  rw [Fin.sum_univ_one]
  norm_num [negGrad, tinyDir]

lemma slope_negOne_neg : slopeOf oneGrad negOneDir < 0 := by
  unfold slopeOf
  rw [Fin.sum_univ_one]
  norm_num [oneGrad, negOneDir]

lemma slope_oneGrad_nonneg : 0 ≤ slopeOf oneGrad (capDir 10 oneGrad) := by
  rw [capDir_oneGrad]
  unfold slopeOf
  rw [Fin.sum_univ_one]
  norm_num [oneGrad]

lemma lambda_min_tinyDir : lambda_min oneVec tinyDir = 10 := by
  unfold lambda_min test_scale convergence_tol_on_x
  rw [Finset.univ_unique, Finset.fold_singleton]
  norm_num [tinyDir, oneVec, abs_of_pos]

lemma lambda_min_negOneDir : lambda_min oneVec negOneDir = 1 / 10 ^ 16 := by
  unfold lambda_min test_scale convergence_tol_on_x
  rw [Finset.univ_unique, Finset.fold_singleton]
  norm_num [negOneDir, oneVec]

/-- Concrete stagnation run of the line search: at `x_old = (1)` with the
tiny direction `(1e-17)`, `lambda_min = 10`, so the very first pass exits via
the stagnation branch with the merit of the trial point `1 + 1e-17`. -/
lemma stag_eval (fuel : ℕ) :
    line_search (fuel + 1) oneVec (1/2) negGrad idResFct () tinyDir oneVec
        (1/2) 10
      = some (LSOutcome.finished oneVec stagMerit tinyDir 1 true) := by
  simp only [line_search]
  rw [capDir_tinyDir]
  rw [if_neg (not_le.mpr slope_tiny_neg)]
  rw [lambda_min_tinyDir]
  rw [lsLoop_succ]
  rw [if_pos (by norm_num : (1:ℝ) < 10)]
  simp only [Option.map_some', Option.some.injEq, LSOutcome.finished.injEq,
    eq_self_iff_true, true_and, and_true]
  rw [halfResSq, Fin.sum_univ_one]
  norm_num [idResFct, oneVec, tinyDir, stagMerit]

/-- Concrete accepting run of the line search: from `x_old = (1)` along
`(-1)` with unit step, the trial point `(0)` has merit `0`, which satisfies
the sufficient-decrease test at once. -/
lemma accept_eval (fuel : ℕ) :
    line_search (fuel + 1) oneVec (1/2) oneGrad idResFct () negOneDir oneVec
        (1/2) 10
      = some (LSOutcome.finished acceptX 0 negOneDir 1 false) := by
  simp only [line_search]
  rw [capDir_negOneDir]
  rw [if_neg (not_le.mpr slope_negOne_neg)]
  rw [lambda_min_negOneDir]
  rw [lsLoop_succ]
  rw [if_neg (by norm_num : ¬ ((1:ℝ) < 1 / 10 ^ 16))]
  have haccept : halfResSq (idResFct () fun i => oneVec i + 1 * negOneDir i)
      ≤ 1/2 + min_fct_decrease * 1 * slopeOf oneGrad negOneDir := by
    rw [halfResSq, Fin.sum_univ_one]
    unfold slopeOf
    rw [Fin.sum_univ_one]
    norm_num [idResFct, oneVec, negOneDir, oneGrad, min_fct_decrease]
  rw [if_pos haccept]
  simp only [Option.map_some', Option.some.injEq, LSOutcome.finished.injEq,
    eq_self_iff_true, true_and, and_true]
  constructor
  · funext i
    norm_num [oneVec, negOneDir, acceptX]
  · rw [halfResSq, Fin.sum_univ_one]
    norm_num [idResFct, oneVec, negOneDir]

/-- A failing slope test makes `line_search` return the roundoff error with
the entry contents of `x` and the merit untouched. -/
lemma line_search_roundoff_eval {P : Type} {n : ℕ} (fuel : ℕ) (x_old : Vec n)
    (f_old : ℝ) (gradient : Vec n) (residual_fct : ResidualFctPt P n)
    (params : P) (newton_dir : Vec n) (xIn : Vec n) (meritIn : ℝ)
    (stpmax : ℝ) (h : 0 ≤ slopeOf gradient (capDir stpmax newton_dir)) :
    line_search fuel x_old f_old gradient residual_fct params newton_dir xIn
        meritIn stpmax
      = some (LSOutcome.roundoff xIn meritIn (capDir stpmax newton_dir)) := by
  simp only [line_search]
  rw [if_pos h]

/-- A concrete call that converges on the spot: `r(x) = x` at `x = (0)`. -/
lemma converged_eval :
    black_box_fd_newton_solve idResFct none idLinSolve () 1 1 (1/10^8) false 0
        zeroVec
      = some (Except.ok zeroVec, 0) := by
  show newtonLoop idResFct none idLinSolve () 1 (1/10^8) false 0 (0+1) zeroVec 0
    = some (Except.ok zeroVec, 0)
  simp only [newtonLoop]
  rw [if_pos (by norm_num [maxAbsRes_one, idResFct, zeroVec] :
    maxAbsRes (idResFct () zeroVec) < 1)]

/-- Counterexample to claim C1 as stated: with step-length control enabled,
an analytic Jacobian inconsistent with the linear solve makes the slope test
fail, and the call propagates the line search's `RoundoffError` — it neither
returns normally nor throws `ConvergenceFailure`. -/
theorem newton_solve_roundoff_counterexample :
    black_box_fd_newton_solve idResFct (some oneJacFct) negLinSolve () 1 1
        (1/10^8) true 1 twoVec
      = some (Except.error SolverError.roundoff, 1) ∧
    (Except.error SolverError.roundoff : Except SolverError (Vec 1))
      ≠ Except.error SolverError.convergenceFailure := by
  constructor
  · show newtonLoop idResFct (some oneJacFct) negLinSolve () 1 (1/10^8) true 1
        (0+1) twoVec 0 = some (Except.error SolverError.roundoff, 1)
    simp only [newtonLoop]
    rw [if_neg (by norm_num [maxAbsRes_one, idResFct, twoVec] :
      ¬ (maxAbsRes (idResFct () twoVec) < 1))]
    rw [if_pos trivial]
    rw [line_search_roundoff_eval]
    norm_num [slopeOf, capDir, maxStep, jacobianOf, oneJacFct, negLinSolve,
      idResFct, twoVec, Fin.sum_univ_one, sqrt_four]
  · simp

/-- Witness for claim C1 at a concrete terminating call. -/
theorem newton_solve_outcome_trichotomy_witness :
    (black_box_fd_newton_solve idResFct none idLinSolve () 1 1 (1/10^8) false
        0 zeroVec
      = some (Except.ok zeroVec, 0)) ∧
    ((∃ v, (Except.ok zeroVec : Except SolverError (Vec 1)) = Except.ok v ∧
        maxAbsRes (idResFct () v) < 1) ∨
     ((Except.ok zeroVec : Except SolverError (Vec 1))
        = Except.error SolverError.convergenceFailure ∧ (0 : ℕ) = 1) ∨
     ((Except.ok zeroVec : Except SolverError (Vec 1))
        = Except.error SolverError.roundoff ∧ false = true)) :=
  ⟨converged_eval,
    newton_solve_outcome_trichotomy idResFct none idLinSolve () 1 1 (1/10^8)
      false 0 zeroVec (Except.ok zeroVec) 0 converged_eval⟩

/-- Witness for claim C2 at a concrete already-converged call. -/
theorem newton_solve_converged_immediate_witness :
    ((0 : ℕ) < 1) ∧ ((0 : ℕ) < 1) ∧ maxAbsRes (idResFct () zeroVec) < 1 ∧
    black_box_fd_newton_solve idResFct none idLinSolve () 1 1 (1/10^8) false 0
        zeroVec
      = some (Except.ok zeroVec, 0) :=
  ⟨Nat.one_pos, Nat.one_pos,
    by norm_num [maxAbsRes_one, idResFct, zeroVec],
    newton_solve_converged_immediate idResFct none idLinSolve () 1 1 (1/10^8)
      false 0 zeroVec Nat.one_pos Nat.one_pos
      (by norm_num [maxAbsRes_one, idResFct, zeroVec])⟩

/-- Counterexample to claim C3 as stated: a stagnation exit of `line_search`
returns `x` restored to `x_old` but a merit value computed at the trial
point, so the returned `x` and merit are not mutually consistent. -/
theorem line_search_stagnation_merit_counterexample :
    line_search 1 oneVec (1/2) negGrad idResFct () tinyDir oneVec (1/2) 10
      = some (LSOutcome.finished oneVec stagMerit tinyDir 1 true) ∧
    stagMerit ≠ halfResSq (idResFct () oneVec) := by
  refine ⟨stag_eval 0, ?_⟩
  rw [halfResSq, Fin.sum_univ_one]
  norm_num [stagMerit, idResFct, oneVec]

/-- Witness for claim C3 (amended) at the concrete stagnation run. -/
theorem line_search_stagnation_restores_x_witness :
    (line_search 1 oneVec (1/2) negGrad idResFct () tinyDir oneVec (1/2) 10
      = some (LSOutcome.finished oneVec stagMerit tinyDir 1 true)) ∧
    (oneVec = oneVec ∧ tinyDir = capDir 10 tinyDir ∧
      1 < lambda_min oneVec tinyDir ∧
      stagMerit = halfResSq (idResFct () fun i => oneVec i + 1 * tinyDir i)) :=
  ⟨stag_eval 0, line_search_stagnation_restores_x (stag_eval 0)⟩

/-- Witness for claim C5 at the concrete accepting run. -/
theorem line_search_accept_sufficient_decrease_witness :
    (line_search 1 oneVec (1/2) oneGrad idResFct () negOneDir oneVec (1/2) 10
      = some (LSOutcome.finished acceptX 0 negOneDir 1 false)) ∧
    (negOneDir = capDir 10 negOneDir ∧
      acceptX = (fun i => oneVec i + 1 * negOneDir i) ∧
      (0 : ℝ) = halfResSq (idResFct () acceptX) ∧
      (0 : ℝ) ≤ 1/2 + min_fct_decrease * 1 * slopeOf oneGrad negOneDir) :=
  ⟨accept_eval 0, line_search_accept_sufficient_decrease (accept_eval 0)⟩

lemma slope_negOne_cap_neg : slopeOf oneGrad (capDir 10 negOneDir) < 0 := by
  rw [capDir_negOneDir]
  exact slope_negOne_neg

/-- Witness for claim C6 at a concrete descent configuration. -/
theorem line_search_backtracking_terminates_witness :
    slopeOf oneGrad (capDir 10 negOneDir) < 0 ∧
    ((∀ lam lamAux fAux f : ℝ, 0 < lam →
        1/2 + min_fct_decrease * lam * slopeOf oneGrad (capDir 10 negOneDir)
            < f →
        0.1 * lam ≤ next_lambda (slopeOf oneGrad (capDir 10 negOneDir)) (1/2)
            lam lamAux fAux f ∧
        next_lambda (slopeOf oneGrad (capDir 10 negOneDir)) (1/2) lam lamAux
            fAux f ≤ shrink_factor * lam ∧
        next_lambda (slopeOf oneGrad (capDir 10 negOneDir)) (1/2) lam lamAux
            fAux f < lam) ∧
      ∃ fuel, (line_search fuel oneVec (1/2) oneGrad idResFct () negOneDir
          oneVec (1/2) 10).isSome = true) :=
  ⟨slope_negOne_cap_neg,
    line_search_backtracking_terminates oneVec (1/2) oneGrad idResFct ()
      negOneDir oneVec (1/2) 10 slope_negOne_cap_neg⟩

lemma maxStep_zeroVec : maxStep zeroVec = 100 := by
  unfold maxStep
  rw [Fin.sum_univ_one,
    show zeroVec 0 * zeroVec 0 = (0 : ℝ) by norm_num [zeroVec],
    Real.sqrt_zero]
  norm_num

lemma hbig_hugeDir :
    maxStep zeroVec < Real.sqrt (∑ i, hugeDir i * hugeDir i) := by
  rw [maxStep_zeroVec, Fin.sum_univ_one,
    show hugeDir 0 * hugeDir 0 = (300 : ℝ) * 300 from rfl,
    Real.sqrt_mul_self (by norm_num : (0:ℝ) ≤ 300)]
  norm_num

/-- Witness for claim C8 at a concrete over-long direction. -/
theorem step_cap_norm_witness :
    (maxStep zeroVec < Real.sqrt (∑ i, hugeDir i * hugeDir i)) ∧
    (maxStep zeroVec
        = 100 * max (Real.sqrt (∑ i, zeroVec i * zeroVec i)) ((1:ℕ) : ℝ) ∧
      Real.sqrt (∑ i, capDir (maxStep zeroVec) hugeDir i
          * capDir (maxStep zeroVec) hugeDir i)
        = maxStep zeroVec ∧
      ∀ d : Vec 1, ¬ (maxStep zeroVec < Real.sqrt (∑ i, d i * d i)) →
        capDir (maxStep zeroVec) d = d) :=
  ⟨hbig_hugeDir, step_cap_norm zeroVec hugeDir hbig_hugeDir⟩

/-- Witness for claim C9 at the concrete tiny-direction configuration. -/
theorem lambda_min_formula_and_stagnation_exit_witness :
    ((0 : ℕ) < 1) ∧
    (lambda_min oneVec tinyDir
        = convergence_tol_on_x /
            ((Finset.univ : Finset (Fin 1)).sup'
              ⟨⟨0, Nat.one_pos⟩, Finset.mem_univ _⟩
              fun i => |tinyDir i| / max |oneVec i| 1) ∧
      ∀ fuel lam lamAux fAux, lam < lambda_min oneVec tinyDir →
        lsLoop idResFct () oneVec (1/2) (-1) (lambda_min oneVec tinyDir)
            tinyDir (fuel + 1) lam lamAux fAux
          = some ⟨oneVec,
              halfResSq (idResFct () fun i => oneVec i + lam * tinyDir i),
              lam, true⟩) :=
  ⟨Nat.one_pos,
    lambda_min_formula_and_stagnation_exit idResFct () oneVec (1/2) (-1)
      tinyDir Nat.one_pos⟩

/-- Witness for claim C10 at a concrete non-descent configuration: `x` and
the merit come back exactly as they went in. -/
theorem line_search_roundoff_preserves_x_witness :
    (0 ≤ slopeOf oneGrad (capDir 10 oneGrad)) ∧
    line_search 1 oneVec (1/2) oneGrad idResFct () oneGrad twoVec 3 10
      = some (LSOutcome.roundoff twoVec 3 (capDir 10 oneGrad)) :=
  ⟨slope_oneGrad_nonneg,
    line_search_roundoff_preserves_x 1 oneVec (1/2) oneGrad idResFct ()
      oneGrad twoVec 3 10 slope_oneGrad_nonneg⟩

end BlackBoxFDNewtonSolver
